import Mathlib

/-!
Verification of the pagination engine in `sdk/core/azure_core/src/http/pager.rs`.

The development shallowly embeds:
* `PagerResult` (pager.rs lines 12-17) and `PagerResult::from_response_header`
  (lines 24-29);
* the page-sequence driver `iter_from_callback` (lines 439-473), an
  `unfold`-based stream whose state is the tri-state `State` (lines 432-437);
  futures are modelled as already-resolved values, so the callback is a pure
  function `Option N → Except E (PagerResult P N)`;
* `ItemIterator::poll_next` (lines 245-279), the loop that buffers the current
  page's item cursor and pulls pages from the underlying stream; the underlying
  stream is modelled by the finite list of elements it will emit;
* `PageIterator::poll_next` (lines 415-424), which delegates to the stream, and
  `ItemIterator::into_pages` (lines 238-242).
-/

namespace Pager

/-- The result of fetching a single page: either more pages exist (with a
continuation value) or paging is done.  Mirrors `PagerResult<P, N>`
(pager.rs lines 12-17). -/
inductive PagerResult (P : Type) (N : Type) where
  | More (response : P) (next : N)
  | Done (response : P)
deriving DecidableEq, Repr

/-- The response attached to a `PagerResult` (both variants carry one). -/
def PagerResult.response {P N : Type} : PagerResult P N → P
  | .More r _ => r
  | .Done r => r

/-- Modelled from the spec: the transport `Headers` collection of
`azure_core` (its `headers` module is not part of the examined sources); a
finite collection of name/value pairs, looked up by name. -/
structure Headers where
  entries : List (String × String)
deriving DecidableEq, Repr

/-- Modelled from the spec: `Headers::get_optional_string` returns the value
of the header with the given name when present, and `none` when the response
carries no header of that name. -/
def Headers.get_optional_string (h : Headers) (name : String) : Option String :=
  (h.entries.find? fun e => e.1 == name).map fun e => e.2

/-- Modelled from the spec: the transport `Response` type (its module is not
part of the examined sources); a completed page-fetch response carrying a
status, headers and a typed body. -/
structure Response (P : Type) where
  status : Nat
  headers : Headers
  body : P
deriving DecidableEq, Repr

/-- `PagerResult::from_response_header` (pager.rs lines 24-29): extract the
continuation from the named header; present gives `More`, absent gives
`Done`, the response itself being attached either way. -/
def PagerResult.from_response_header {P : Type} (response : Response P)
    (header_name : String) : PagerResult (Response P) String :=
  match response.headers.get_optional_string header_name with
  | some next => PagerResult.More response next
  | none => PagerResult.Done response

/-- The driver's tri-state (pager.rs lines 432-437): no fetch yet performed,
a continuation pending use, or terminal. -/
inductive State (N : Type) where
  | Init
  | More (c : N)
  | Done
deriving DecidableEq, Repr

/-- The argument the unfold closure would pass to the callback in a given
state (pager.rs lines 455-459): `none` in `Init`, `some c` in `More c`, and
no call at all in `Done`. -/
def argOf {N : Type} : State N → Option (Option N)
  | .Init => some none
  | .More c => some (some c)
  | .Done => none

/-- Processing of the callback's result by the unfold closure
(pager.rs lines 460-467): an error is emitted and the state becomes `Done`;
`More` emits the response and stores the continuation; `Done` emits the
response and the state becomes `Done`. -/
def applyResult {P N E : Type} :
    Except E (PagerResult P N) → Except E P × State N
  | .error e => (.error e, .Done)
  | .ok (.More r c) => (.ok r, .More c)
  | .ok (.Done r) => (.ok r, .Done)

/-- One step of the `unfold` closure of `iter_from_callback`
(pager.rs lines 454-471): in `Done` the closure returns `None` (stream end,
no callback call); otherwise the callback is invoked with the state's
argument and its result processed by `applyResult`. -/
def unfoldStep {P N E : Type} (f : Option N → Except E (PagerResult P N))
    (s : State N) : Option (Except E P × State N) :=
  match s with
  | .Init => some (applyResult (f none))
  | .More c => some (applyResult (f (some c)))
  | .Done => none

/-- The callback invocation a pull in state `s` performs, if any. -/
def callOf {P N E : Type} (f : Option N → Except E (PagerResult P N))
    (s : State N) : Option (Except E (PagerResult P N)) :=
  (argOf s).map f

/-- The driver state after one pull (unchanged when the stream has ended). -/
def nextState {P N E : Type} (f : Option N → Except E (PagerResult P N))
    (s : State N) : State N :=
  match unfoldStep f s with
  | some st => st.2
  | none => s

/-- The driver state after `k` pulls starting from `s`. -/
def iterState {P N E : Type} (f : Option N → Except E (PagerResult P N)) :
    State N → Nat → State N
  | s, 0 => s
  | s, k + 1 => iterState f (nextState f s) k

/-- The driver state after `i` pulls of a fresh session; invocation `i` of
the callback (0-indexed), when it happens, happens in this state. -/
def stateAfter {P N E : Type} (f : Option N → Except E (PagerResult P N))
    (i : Nat) : State N := iterState f State.Init i

/-- The list of elements the driver stream emits over `k` pulls from `s`. -/
def pagesOut {P N E : Type} (f : Option N → Except E (PagerResult P N)) :
    State N → Nat → List (Except E P)
  | _, 0 => []
  | s, k + 1 =>
    match unfoldStep f s with
    | none => []
    | some st => st.1 :: pagesOut f st.2 k

/-- The number of callback invocations the driver performs over `k` pulls
from `s` (one per pull while not `Done`, none afterwards). -/
def callCount {P N E : Type} (f : Option N → Except E (PagerResult P N)) :
    State N → Nat → Nat
  | _, 0 => 0
  | s, k + 1 =>
    match unfoldStep f s with
    | none => callCount f s k
    | some st => 1 + callCount f st.2 k

/-- `PageIterator::poll_next` (pager.rs lines 415-424): the page iterator
delegates each poll directly to its underlying stream; for the stream built
by `PageIterator::from_callback` (line 396, `from_stream(iter_from_callback(..))`)
that stream is the driver, so one poll is one `unfoldStep`. -/
def pageIteratorPoll {P N E : Type} (f : Option N → Except E (PagerResult P N))
    (s : State N) : Option (Except E P × State N) :=
  unfoldStep f s

/-- The elements a `PageIterator` over the driver yields over `k` polls. -/
def pageIteratorOut {P N E : Type}
    (f : Option N → Except E (PagerResult P N)) :
    State N → Nat → List (Except E P)
  | _, 0 => []
  | s, k + 1 =>
    match pageIteratorPoll f s with
    | none => []
    | some st => st.1 :: pageIteratorOut f st.2 k

/-- The state of a fresh `ItemIterator::from_callback` (pager.rs lines
213-215 and 227-230): the driver stream in its initial state, no cursor. -/
def itemIteratorInit (N I : Type) : State N × Option (List I) :=
  (State.Init, none)

/-- `ItemIterator::into_pages` (pager.rs lines 238-242): hand the underlying
stream, unchanged, to a `PageIterator`, dropping the item cursor. -/
def into_pages {N I : Type} (st : State N × Option (List I)) : State N :=
  st.1

/-- Concrete callback for tests: two `More` pages (responses 10 and 20,
continuations 1 and 2) then `Done` (response 30). -/
def f2 : Option Nat → Except Unit (PagerResult Nat Nat) := fun o =>
  match o with
  | none => Except.ok (PagerResult.More 10 1)
  | some c => if c = 1 then Except.ok (PagerResult.More 20 2)
      else Except.ok (PagerResult.Done 30)

/-- Concrete callback for tests: one `More` page (response 7, continuation
1), then an error. -/
def f3 : Option Nat → Except Unit (PagerResult Nat Nat) := fun o =>
  match o with
  | none => Except.ok (PagerResult.More 7 1)
  | some _ => Except.error ()

/-- Concrete callback for tests: one `More` page (response 37, continuation
5), then `Done` (response 99). -/
def f4 : Option Nat → Except Unit (PagerResult Nat Nat) := fun o =>
  match o with
  | none => Except.ok (PagerResult.More 37 5)
  | some _ => Except.ok (PagerResult.Done 99)

/-- Concrete extraction for tests: a page is its own item list. -/
def extractOk : List Nat → Except Unit (List Nat) := fun l => Except.ok l

/-- Concrete extraction for tests: page `n` yields items `n` and `n + 1`. -/
def extract3 : Nat → Except Unit (List Nat) := fun n => Except.ok [n, n + 1]

/-- Concrete extraction for tests: page 0 fails to extract, page `n > 0`
yields the single item `n`. -/
def extract6 : Nat → Except Unit (List Nat) := fun n =>
  if n = 0 then Except.error () else Except.ok [n]

/-- Concrete header name for tests. -/
def hnameNext : String := "x-next"

/-- Concrete header value for tests. -/
def tokVal : String := "tok"

/-- Concrete header name for tests. -/
def ctypeName : String := "content-type"

/-- Concrete header value for tests. -/
def jsonVal : String := "json"

/-- Concrete test response carrying the continuation header. -/
def resp1 : Response Nat := ⟨200, ⟨[(hnameNext, tokVal)]⟩, 5⟩

/-- Concrete test response without the continuation header. -/
def resp2 : Response Nat := ⟨404, ⟨[(ctypeName, jsonVal)]⟩, 7⟩

theorem unfoldStep_eq_callOf {P N E : Type}
    (f : Option N → Except E (PagerResult P N)) (s : State N) :
    unfoldStep f s = (callOf f s).map applyResult := by
  cases s <;> rfl

theorem iterState_succ_front {P N E : Type}
    (f : Option N → Except E (PagerResult P N)) (s : State N) (k : Nat) :
    iterState f s (k + 1) = iterState f (nextState f s) k := rfl

/-- `ItemIterator::poll_next` (pager.rs lines 245-279) for an underlying
stream modelled as the finite list of elements it still emits.  The state is
the pair (remaining stream elements, optional current item cursor).  One
poll: an item from a non-empty cursor is returned and the cursor advanced
(lines 254-257); an exhausted cursor is cleared and the loop continues
(lines 258-260); otherwise the next stream element is pulled: stream end
ends the item sequence (line 273), a stream error is returned as-is with no
cursor installed (line 272), and a page has its items extracted - an
extraction error is returned with no cursor installed (line 269), a
successful extraction installs the cursor and loops (lines 265-267). -/
def pollNext {P E I : Type} (extract : P → Except E (List I)) :
    List (Except E P) → Option (List I) →
      Option (Except E I) × (List (Except E P) × Option (List I))
  | remaining, some (x :: cur) => (some (.ok x), (remaining, some cur))
  | remaining, some [] => pollNext extract remaining none
  | [], none => (none, ([], none))
  | .error e :: rest, none => (some (.error e), (rest, none))
  | .ok p :: rest, none =>
    match extract p with
    | .error e => (some (.error e), (rest, none))
    | .ok l => pollNext extract rest (some l)
termination_by remaining cur =>
  2 * remaining.length + (if cur.isSome then 1 else 0)
decreasing_by all_goals simp <;> omega

/-- The full item sequence the `ItemIterator` yields: repeated `pollNext`
until stream end, written as a structurally terminating recursion (each page
contributes its items, or its error, in order).  `drain_step` below proves
this is exactly the sequence of `pollNext` outputs. -/
def drain {P E I : Type} (extract : P → Except E (List I)) :
    List (Except E P) → Option (List I) → List (Except E I)
  | remaining, some l => l.map .ok ++ drain extract remaining none
  | [], none => []
  | .error e :: rest, none => .error e :: drain extract rest none
  | .ok p :: rest, none =>
    match extract p with
    | .error e => .error e :: drain extract rest none
    | .ok l => l.map .ok ++ drain extract rest none
termination_by remaining cur =>
  2 * remaining.length + (if cur.isSome then 1 else 0)
decreasing_by all_goals simp

/-- `drain` is the sequence of `pollNext` yields: polling once yields either
stream end (and `drain` is empty) or the head of `drain` together with a
state whose `drain` is the tail. -/
theorem drain_step {P E I : Type} (extract : P → Except E (List I))
    (remaining : List (Except E P)) (cur : Option (List I)) :
    drain extract remaining cur =
      match pollNext extract remaining cur with
      | (none, _) => []
      | (some x, st) => x :: drain extract st.1 st.2 := by
  induction remaining, cur using pollNext.induct extract with
  | case1 remaining x cur => simp [pollNext, drain]
  | case2 remaining ih => simpa [pollNext, drain] using ih
  | case3 => simp [pollNext, drain]
  | case4 e rest => simp [pollNext, drain]
  | case5 p rest e hx => simp [pollNext, drain, hx]
  | case6 p rest l hx ih => simpa [pollNext, drain, hx] using ih

theorem pagesOut_Done {P N E : Type}
    (f : Option N → Except E (PagerResult P N)) (k : Nat) :
    pagesOut f State.Done k = ([] : List (Except E P)) := by
  cases k <;> rfl

theorem callCount_Done {P N E : Type}
    (f : Option N → Except E (PagerResult P N)) (k : Nat) :
    callCount (P := P) f State.Done k = 0 := by
  induction k with
  | zero => rfl
  | succ k ih => simpa [callCount, unfoldStep] using ih

/-- Splitting off the first pull of `pagesOut` when a callback call happens. -/
theorem pagesOut_succ_of_call {P N E : Type}
    (f : Option N → Except E (PagerResult P N)) (s : State N)
    (r : Except E (PagerResult P N)) (h : callOf f s = some r) (k : Nat) :
    pagesOut f s (k + 1) =
      (applyResult r).1 :: pagesOut f (applyResult r).2 k := by
  have hu : unfoldStep f s = some (applyResult r) := by
    rw [unfoldStep_eq_callOf, h]; rfl
  simp [pagesOut, hu]

/-- Splitting off the first pull of `callCount` when a callback call happens. -/
theorem callCount_succ_of_call {P N E : Type}
    (f : Option N → Except E (PagerResult P N)) (s : State N)
    (r : Except E (PagerResult P N)) (h : callOf f s = some r) (k : Nat) :
    callCount f s (k + 1) = 1 + callCount f (applyResult r).2 k := by
  have hu : unfoldStep f s = some (applyResult r) := by
    rw [unfoldStep_eq_callOf, h]; rfl
  simp [callCount, hu]

theorem nextState_of_call {P N E : Type}
    (f : Option N → Except E (PagerResult P N)) (s : State N)
    (r : Except E (PagerResult P N)) (h : callOf f s = some r) :
    nextState f s = (applyResult r).2 := by
  have hu : unfoldStep f s = some (applyResult r) := by
    rw [unfoldStep_eq_callOf, h]; rfl
  simp [nextState, hu]

/-- `drain` distributes over concatenation of the underlying page stream:
the cursor is always cleared before a new page is pulled, so pages are
processed independently in order. -/
theorem drain_append {P E I : Type} (extract : P → Except E (List I))
    (A B : List (Except E P)) :
    drain extract (A ++ B) none =
      drain extract A none ++ drain extract B none := by
  induction A with
  | nil => simp [drain]
  | cons x A ih =>
    cases x with
    | error e => simp [drain, ih]
    | ok p =>
      cases hx : extract p with
      | error e => simp [drain, hx, ih]
      | ok l => simp [drain, hx, ih]

/-- Draining a stream of successfully-extracted pages yields exactly the
eager concatenation of the pages' item lists, each item wrapped in `ok`. -/
theorem drain_mapOk {P E I : Type} (extract : P → Except E (List I))
    (ps : List P) (g : P → List I)
    (hex : ∀ q ∈ ps, extract q = Except.ok (g q)) :
    drain extract (ps.map Except.ok) none =
      ((ps.map g).flatten).map Except.ok := by
  induction ps with
  | nil => simp [drain]
  | cons p ps ih =>
    have hp : extract p = Except.ok (g p) := hex p (List.mem_cons_self p ps)
    have ih2 := ih fun q hq => hex q (List.mem_cons_of_mem p hq)
    simp [drain, hp, ih2]

/-- Draining the pages `p 0, ..., p (m-1)` (all successfully extracted, page
`i` yielding item list `ex i`) produces the concatenation of the `ex i`. -/
theorem drain_range {P E I : Type} (extract : P → Except E (List I))
    (m : Nat) (p : Nat → P) (ex : Nat → List I)
    (hex : ∀ i < m, extract (p i) = Except.ok (ex i)) :
    drain extract ((List.range m).map fun i => Except.ok (p i)) none =
      (((List.range m).map ex).flatten).map Except.ok := by
  induction m with
  | zero => simp [drain]
  | succ m ih =>
    have ih2 := ih fun i hi => hex i (Nat.lt_succ_of_lt hi)
    have hm : extract (p m) = Except.ok (ex m) := hex m (Nat.lt_succ_self m)
    rw [List.range_succ]
    simp only [List.map_append, List.map_cons, List.map_nil]
    rw [drain_append, ih2]
    simp [drain, hm]

/-- A session whose invocations 0..m-1 (counted from the given start state)
return `More` and whose invocation m returns `Done` makes exactly `m + 1`
callback invocations over any `k ≥ m + 1` pulls. -/
theorem callCount_run {P N E : Type}
    (f : Option N → Except E (PagerResult P N)) :
    ∀ (m : Nat) (s : State N),
      (∀ i < m, ∃ r c,
        callOf f (iterState f s i) = some (Except.ok (PagerResult.More r c))) →
      (∃ r, callOf f (iterState f s m) = some (Except.ok (PagerResult.Done r))) →
      ∀ k, m + 1 ≤ k → callCount f s k = m + 1 := by
  intro m
  induction m with
  | zero =>
    intro s _ hdone k hk
    obtain ⟨r, hr⟩ := hdone
    obtain ⟨k2, rfl⟩ : ∃ k2, k = k2 + 1 := ⟨k - 1, by omega⟩
    rw [callCount_succ_of_call f s _ hr k2]
    simp [applyResult, callCount_Done]
  | succ m ih =>
    intro s hmore hdone k hk
    obtain ⟨r, c, hr⟩ := hmore 0 (Nat.succ_pos m)
    have hns : nextState f s = State.More c := nextState_of_call f s _ hr
    have hshift : ∀ j, iterState f s (j + 1) = iterState f (State.More c) j := by
      intro j; rw [iterState_succ_front, hns]
    have hmore2 : ∀ i < m, ∃ r2 c2,
        callOf f (iterState f (State.More c) i) =
          some (Except.ok (PagerResult.More r2 c2)) := by
      intro i hi
      have := hmore (i + 1) (by omega)
      rwa [hshift i] at this
    have hdone2 : ∃ r2,
        callOf f (iterState f (State.More c) m) =
          some (Except.ok (PagerResult.Done r2)) := by
      obtain ⟨r2, h2⟩ := hdone
      exact ⟨r2, by rwa [hshift m] at h2⟩
    obtain ⟨k2, rfl⟩ : ∃ k2, k = k2 + 1 := ⟨k - 1, by omega⟩
    rw [callCount_succ_of_call f s _ hr k2]
    have := ih (State.More c) hmore2 hdone2 k2 (by omega)
    simp [applyResult] at this ⊢
    omega

/-- A session whose invocations 0..m-1 (counted from the given start state)
return `More` with pages `p 0, ..., p (m-1)` and whose invocation m returns
an error `e` emits exactly those pages, in order, followed by the single
error element, and makes exactly `m + 1` callback invocations, over any
`k ≥ m + 1` pulls. -/
theorem pagesOut_run {P N E : Type}
    (f : Option N → Except E (PagerResult P N)) :
    ∀ (m : Nat) (s : State N) (p : Nat → P) (e : E),
      (∀ i < m, ∃ c,
        callOf f (iterState f s i) = some (Except.ok (PagerResult.More (p i) c))) →
      callOf f (iterState f s m) = some (Except.error e) →
      ∀ k, m + 1 ≤ k →
        pagesOut f s k =
          (List.range m).map (fun i => Except.ok (p i)) ++ [Except.error e] ∧
        callCount f s k = m + 1 := by
  intro m
  induction m with
  | zero =>
    intro s p e _ herr k hk
    obtain ⟨k2, rfl⟩ : ∃ k2, k = k2 + 1 := ⟨k - 1, by omega⟩
    rw [pagesOut_succ_of_call f s _ herr k2, callCount_succ_of_call f s _ herr k2]
    simp [applyResult, pagesOut_Done, callCount_Done]
  | succ m ih =>
    intro s p e hmore herr k hk
    obtain ⟨c, hr⟩ := hmore 0 (Nat.succ_pos m)
    have hns : nextState f s = State.More c := nextState_of_call f s _ hr
    have hshift : ∀ j, iterState f s (j + 1) = iterState f (State.More c) j := by
      intro j; rw [iterState_succ_front, hns]
    have hmore2 : ∀ i < m, ∃ c2,
        callOf f (iterState f (State.More c) i) =
          some (Except.ok (PagerResult.More (p (i + 1)) c2)) := by
      intro i hi
      have := hmore (i + 1) (by omega)
      rwa [hshift i] at this
    have herr2 : callOf f (iterState f (State.More c) m) =
        some (Except.error e) := by rwa [hshift m] at herr
    obtain ⟨k2, rfl⟩ : ∃ k2, k = k2 + 1 := ⟨k - 1, by omega⟩
    obtain ⟨hpages, hcount⟩ :=
      ih (State.More c) (fun i => p (i + 1)) e hmore2 herr2 k2 (by omega)
    rw [pagesOut_succ_of_call f s _ hr k2, callCount_succ_of_call f s _ hr k2]
    constructor
    · simp only [applyResult] at hpages ⊢
      rw [hpages, List.range_succ_eq_map]
      simp [List.map_map, Function.comp]
    · simp only [applyResult] at hcount ⊢
      omega

theorem iterState_succ_back {P N E : Type}
    (f : Option N → Except E (PagerResult P N)) :
    ∀ (k : Nat) (s : State N),
      iterState f s (k + 1) = nextState f (iterState f s k) := by
  intro k
  induction k with
  | zero => intro s; rfl
  | succ k ih =>
    intro s
    rw [iterState_succ_front, ih, iterState_succ_front]

theorem iterState_Done {P N E : Type}
    (f : Option N → Except E (PagerResult P N)) (k : Nat) :
    iterState (P := P) f State.Done k = State.Done := by
  induction k with
  | zero => rfl
  | succ k ih => rw [iterState_succ_back, ih]; rfl

theorem pageIteratorOut_eq_pagesOut {P N E : Type}
    (f : Option N → Except E (PagerResult P N)) :
    ∀ (k : Nat) (s : State N), pageIteratorOut f s k = pagesOut f s k := by
  intro k
  induction k with
  | zero => intro s; rfl
  | succ k ih =>
    intro s
    simp only [pageIteratorOut, pagesOut, pageIteratorPoll]
    cases unfoldStep f s with
    | none => rfl
    | some st => simp only [ih]

/-- C1: for every finite sequence of pages, each successfully extracting to
its item list, fully consuming the `ItemIterator` built over those pages
yields exactly the eager concatenation of all pages' item lists, in page
order and within each page in extraction order, hence exactly the sum of the
pages' item counts; a page with zero items contributes nothing without
ending the sequence. -/
theorem C1_items_concat {P E I : Type} (extract : P → Except E (List I))
    (pages : List P) (g : P → List I)
    (hex : ∀ q ∈ pages, extract q = Except.ok (g q)) :
    drain extract (pages.map Except.ok) none =
      ((pages.map g).flatten).map Except.ok ∧
    (drain extract (pages.map Except.ok) none).length =
      (pages.map fun q => (g q).length).sum := by
  have h := drain_mapOk extract pages g hex
  refine ⟨h, ?_⟩
  rw [h, List.length_map, List.length_flatten, List.map_map]
  rfl

/-- Witness for C1 at three concrete pages, the middle one empty: the items
come out concatenated, the empty page skipped, three items in total. -/
theorem C1_witness :
    drain extractOk ([[1, 2], [], [3]].map Except.ok) none =
      (([[1, 2], [], [3]].map id).flatten).map Except.ok ∧
    (drain extractOk ([[1, 2], [], [3]].map Except.ok) none).length =
      ([[1, 2], [], [3]].map fun q => (id q).length).sum :=
  C1_items_concat extractOk [[1, 2], [], [3]] id (fun _ _ => rfl)

/-- C2: a session whose invocations 0..n-1 return `More` and whose
invocation n returns `Done` invokes the callback exactly `n + 1` times, no
matter how many further pulls (any `k ≥ n + 1`) the consumer performs. -/
theorem C2_callback_invocations {P N E : Type}
    (f : Option N → Except E (PagerResult P N)) (n : Nat)
    (hmore : ∀ i < n, ∃ r c,
      callOf f (stateAfter f i) = some (Except.ok (PagerResult.More r c)))
    (hdone : ∃ r,
      callOf f (stateAfter f n) = some (Except.ok (PagerResult.Done r)))
    (k : Nat) (hk : n + 1 ≤ k) :
    callCount f State.Init k = n + 1 :=
  callCount_run f n State.Init hmore hdone k hk

/-- Witness for C2: the concrete three-page callback `f2` (two `More` calls
then `Done`) is invoked exactly 3 times over 5 pulls. -/
theorem C2_witness : callCount f2 State.Init 5 = 3 :=
  C2_callback_invocations f2 2
    (by
      intro i hi
      interval_cases i
      · exact ⟨10, 1, rfl⟩
      · exact ⟨20, 2, rfl⟩)
    ⟨30, rfl⟩ 5 (by omega)

/-- C3: a session whose invocations 0..m-1 return `More` with pages
`p 0, ..., p (m-1)` and whose invocation m returns error `e` makes exactly
`m + 1` calls in total, the driver emits those pages in order followed by
the error exactly once, and (when the pages extract successfully to item
lists `ex i`) the `ItemIterator` yields every item of pages 0..m-1, in
order, before the single error element. -/
theorem C3_error_after_items {P N E I : Type}
    (f : Option N → Except E (PagerResult P N)) (m : Nat) (p : Nat → P)
    (e : E)
    (hmore : ∀ i < m, ∃ c,
      callOf f (stateAfter f i) = some (Except.ok (PagerResult.More (p i) c)))
    (herr : callOf f (stateAfter f m) = some (Except.error e))
    (extract : P → Except E (List I)) (ex : Nat → List I)
    (hex : ∀ i < m, extract (p i) = Except.ok (ex i))
    (k : Nat) (hk : m + 1 ≤ k) :
    callCount f State.Init k = m + 1 ∧
    pagesOut f State.Init k =
      (List.range m).map (fun i => Except.ok (p i)) ++ [Except.error e] ∧
    drain extract (pagesOut f State.Init k) none =
      (((List.range m).map ex).flatten).map Except.ok ++ [Except.error e] := by
  obtain ⟨hpages, hcount⟩ := pagesOut_run f m State.Init p e hmore herr k hk
  refine ⟨hcount, hpages, ?_⟩
  rw [hpages, drain_append, drain_range extract m p ex hex]
  simp [drain]

/-- Witness for C3: the concrete callback `f3` (one `More` page 7, then an
error) makes exactly 2 calls over 4 pulls, emits page 7 then the error, and
the item sequence is the page's two items followed by the error. -/
theorem C3_witness :
    callCount f3 State.Init 4 = 2 ∧
    pagesOut f3 State.Init 4 =
      (List.range 1).map (fun i => Except.ok ((fun _ => 7) i)) ++
        [Except.error ()] ∧
    drain extract3 (pagesOut f3 State.Init 4) none =
      (((List.range 1).map fun _ => [7, 8]).flatten).map Except.ok ++
        [Except.error ()] :=
  C3_error_after_items f3 1 (fun _ => 7) ()
    (by
      intro i hi
      interval_cases i
      exact ⟨1, rfl⟩)
    rfl extract3 (fun _ => [7, 8])
    (by
      intro i hi
      interval_cases i
      rfl)
    4 (by omega)

/-- If the state reached after one more pull still calls the callback with
argument `a`, the pull just performed returned `More` and `a` is exactly its
continuation. -/
theorem argOf_nextState {P N E : Type}
    (f : Option N → Except E (PagerResult P N)) (s : State N) (a : Option N)
    (h : argOf (nextState f s) = some a) :
    ∃ r c, callOf f s = some (Except.ok (PagerResult.More r c)) ∧
      a = some c := by
  cases s with
  | Done => simp [nextState, unfoldStep, argOf] at h
  | Init =>
    cases hf : f none with
    | error e => simp [nextState, unfoldStep, hf, applyResult, argOf] at h
    | ok pr =>
      cases pr with
      | More r c =>
        refine ⟨r, c, by simp [callOf, argOf, hf], ?_⟩
        simp [nextState, unfoldStep, hf, applyResult, argOf] at h
        exact h.symm
      | Done r => simp [nextState, unfoldStep, hf, applyResult, argOf] at h
  | More c0 =>
    cases hf : f (some c0) with
    | error e => simp [nextState, unfoldStep, hf, applyResult, argOf] at h
    | ok pr =>
      cases pr with
      | More r c =>
        refine ⟨r, c, by simp [callOf, argOf, hf], ?_⟩
        simp [nextState, unfoldStep, hf, applyResult, argOf] at h
        exact h.symm
      | Done r => simp [nextState, unfoldStep, hf, applyResult, argOf] at h

/-- C4: the first callback invocation of a session receives `none`; the
invocation after one returning `More` with continuation `c` receives exactly
`some c`; and every invocation past the first arises this way - its
argument is `some c` for the continuation `c` of the previous invocation's
`More` result, so no other argument value is ever passed. -/
theorem C4_continuation_threading {P N E : Type}
    (f : Option N → Except E (PagerResult P N)) :
    argOf (stateAfter (P := P) f 0) = some (none : Option N) ∧
    (∀ (i : Nat) (r : P) (c : N),
      callOf f (stateAfter f i) = some (Except.ok (PagerResult.More r c)) →
      argOf (stateAfter f (i + 1)) = some (some c)) ∧
    (∀ (i : Nat) (a : Option N),
      argOf (stateAfter f (i + 1)) = some a →
      ∃ r c,
        callOf f (stateAfter f i) = some (Except.ok (PagerResult.More r c)) ∧
        a = some c) := by
  refine ⟨rfl, ?_, ?_⟩
  · intro i r c h
    have hns : nextState f (stateAfter f i) =
        (applyResult (Except.ok (PagerResult.More r c))).2 :=
      nextState_of_call f _ _ h
    rw [stateAfter, iterState_succ_back, ← stateAfter, hns]
    rfl
  · intro i a h
    rw [stateAfter, iterState_succ_back, ← stateAfter] at h
    exact argOf_nextState f (stateAfter f i) a h

/-- Witness for C4: with the concrete callback `f4`, whose first call
returns `More` with continuation 5, the second invocation receives exactly
`some 5`. -/
theorem C4_witness : argOf (stateAfter f4 1) = some (some 5) :=
  (C4_continuation_threading f4).2.1 0 37 5 rfl

/-- C5: the driver's `Done` state is absorbing: a pull in `Done` emits
nothing and makes no callback call, the state stays `Done`, and over any
number `k` of further pulls the driver emits no elements, performs zero
callback invocations, and remains in `Done`. -/
theorem C5_done_absorbing {P N E : Type}
    (f : Option N → Except E (PagerResult P N)) (k : Nat) :
    unfoldStep f (State.Done : State N) = none ∧
    nextState f (State.Done : State N) = State.Done ∧
    pagesOut f State.Done k = ([] : List (Except E P)) ∧
    callCount f State.Done k = 0 ∧
    iterState f (State.Done : State N) k = State.Done :=
  ⟨rfl, rfl, pagesOut_Done f k, callCount_Done f k, iterState_Done f k⟩

/-- C6: when extracting the items of a successfully fetched page fails, the
`ItemIterator` yields that extraction error exactly once with the rest of
the page stream left untouched (the driver is not forced into its exhausted
state); items already yielded from earlier pages are unaffected and the next
pull proceeds to the next page normally; if the failing page was the last
element of the stream, the sequence simply ends after the error. -/
theorem C6_extraction_error_skips_page {P E I : Type}
    (extract : P → Except E (List I)) (p : P) (e : E)
    (hep : extract p = Except.error e)
    (front rest : List (Except E P)) :
    pollNext extract (Except.ok p :: rest) none =
      (some (Except.error e), (rest, none)) ∧
    drain extract (front ++ Except.ok p :: rest) none =
      drain extract front none ++ Except.error e :: drain extract rest none ∧
    drain extract (front ++ [Except.ok p]) none =
      drain extract front none ++ [Except.error e] := by
  refine ⟨?_, ?_, ?_⟩
  · simp [pollNext, hep]
  · rw [drain_append]; simp [drain, hep]
  · rw [drain_append]; simp [drain, hep]

/-- Witness for C6: page 0 fails to extract under `extract6`; between a good
front page 1 and a good following page 2, the iterator yields the error once
and then continues with page 2's item. -/
theorem C6_witness :
    pollNext extract6 (Except.ok 0 :: [Except.ok 2]) none =
      (some (Except.error ()), ([Except.ok 2], none)) ∧
    drain extract6 ([Except.ok 1] ++ Except.ok 0 :: [Except.ok 2]) none =
      drain extract6 [Except.ok 1] none ++
        Except.error () :: drain extract6 [Except.ok 2] none ∧
    drain extract6 ([Except.ok 1] ++ [Except.ok 0]) none =
      drain extract6 [Except.ok 1] none ++ [Except.error ()] :=
  C6_extraction_error_skips_page extract6 0 () rfl [Except.ok 1] [Except.ok 2]

/-- C7: `from_response_header` returns `More` with the header's value as the
continuation when the response carries a header of the given name, and
`Done` when it carries no header of that name. -/
theorem C7_from_response_header {P : Type} (resp : Response P)
    (name : String) :
    (∀ v, resp.headers.get_optional_string name = some v →
      PagerResult.from_response_header resp name = PagerResult.More resp v) ∧
    (resp.headers.get_optional_string name = none →
      PagerResult.from_response_header resp name = PagerResult.Done resp) := by
  constructor
  · intro v hv
    simp [PagerResult.from_response_header, hv]
  · intro hv
    simp [PagerResult.from_response_header, hv]

/-- Witness for C7: `resp1` carries the header, so the result is `More` with
the header's value; `resp2` does not, so the result is `Done`. -/
theorem C7_witness :
    PagerResult.from_response_header resp1 hnameNext =
      PagerResult.More resp1 tokVal ∧
    PagerResult.from_response_header resp2 hnameNext =
      PagerResult.Done resp2 :=
  ⟨(C7_from_response_header resp1 hnameNext).1 tokVal rfl,
   (C7_from_response_header resp2 hnameNext).2 rfl⟩

/-- C8: the page sequence of a `PageIterator` built from a callback is
element-for-element the driver's sequence, with no transformation: each poll
is exactly one driver step, and the collected outputs coincide - also when
the `PageIterator` is obtained from `ItemIterator::from_callback` followed
by `into_pages`. -/
theorem C8_page_iterator_passthrough {P N E I : Type}
    (f : Option N → Except E (PagerResult P N)) (k : Nat) :
    (∀ s : State N, pageIteratorPoll f s = unfoldStep f s) ∧
    pageIteratorOut f (State.Init : State N) k = pagesOut f State.Init k ∧
    pageIteratorOut f (into_pages (itemIteratorInit N I)) k =
      pagesOut f State.Init k :=
  ⟨fun _ => rfl, pageIteratorOut_eq_pagesOut f k State.Init,
   pageIteratorOut_eq_pagesOut f k State.Init⟩

/-- C9: `from_response_header` embeds the input response itself, unmodified,
in whichever variant it produces: the response of the result is the given
response, whatever the header lookup said. -/
theorem C9_response_unmodified {P : Type} (resp : Response P)
    (name : String) :
    (PagerResult.from_response_header resp name).response = resp := by
  unfold PagerResult.from_response_header
  cases resp.headers.get_optional_string name <;> rfl

/-- C10: whenever a poll of the `ItemIterator` yields an error element
(stream error or extraction error), the cursor stored in the resulting state
is absent, so no buffered item can be yielded after the error out of
order. -/
theorem C10_error_leaves_no_cursor {P E I : Type}
    (extract : P → Except E (List I)) :
    ∀ (rem : List (Except E P)) (cur : Option (List I)) (e : E)
      (rem2 : List (Except E P)) (cur2 : Option (List I)),
      pollNext extract rem cur = (some (Except.error e), (rem2, cur2)) →
      cur2 = none := by
  intro rem cur
  induction rem, cur using pollNext.induct extract with
  | case1 remaining x cur =>
    intro e rem2 cur2 h
    simp [pollNext] at h
  | case2 remaining ih =>
    intro e rem2 cur2 h
    rw [pollNext] at h
    exact ih e rem2 cur2 h
  | case3 =>
    intro e rem2 cur2 h
    simp [pollNext] at h
  | case4 e0 rest =>
    intro e rem2 cur2 h
    simp [pollNext] at h
    exact h.2.2.symm
  | case5 p rest e0 hx =>
    intro e rem2 cur2 h
    simp [pollNext, hx] at h
    exact h.2.2.symm
  | case6 p rest l hx ih =>
    intro e rem2 cur2 h
    rw [pollNext] at h
    simp [hx] at h
    exact ih e rem2 cur2 h

/-- Witness for C10: a concrete poll that yields a stream error has `none`
as the resulting cursor. -/
theorem C10_witness :
    pollNext extract6 [Except.error ()] (none : Option (List Nat)) =
      (some (Except.error ()), ([], none)) ∧
    (none : Option (List Nat)) = none := by
  have h : pollNext extract6 [Except.error ()] (none : Option (List Nat)) =
      (some (Except.error ()), ([], none)) := by simp [pollNext]
  exact ⟨h, C10_error_leaves_no_cursor extract6 [Except.error ()] none () [] none h⟩

end Pager
